import Mathlib

/-!
Verification of the statistical core of `transient_crossmatching.py`.

The script's numerical core (ellipse-to-covariance conversion, spherically
corrected Mahalanobis distance, chi-squared confidence scoring, contour
geometry) is embedded over the exact reals.  External numerical routines are
modelled by their mathematical contracts:

* `scipy.stats.chi2.cdf`/`ppf` with two degrees of freedom have the exact
  closed forms `1 - exp (-x/2)` and `-2 * log (1 - p)`;
* `np.linalg.inv` on a 2x2 matrix is the adjugate divided by the determinant,
  and raises `LinAlgError` on a singular input (modelled with `Except`);
* `np.linalg.eigh` returns an orthonormal eigenbasis, captured by the
  predicate `IsEighOf` (stated after the sort to descending order performed
  by `gauss_contour`).
-/

namespace TNS

noncomputable section

/-- np.radians: convert degrees to radians. -/
def radians (x : ℝ) : ℝ := x * (Real.pi / 180)

/-- np.degrees: convert radians to degrees. -/
def degrees (x : ℝ) : ℝ := x * (180 / Real.pi)

/-- np.arctan2 y x, the angle of the point (x, y), modelled as the complex
argument of x + y*i. -/
def arctan2 (y x : ℝ) : ℝ := Complex.arg ⟨x, y⟩

/-- A 2x2 real matrix, row major. -/
structure Mat2 where
  m00 : ℝ
  m01 : ℝ
  m10 : ℝ
  m11 : ℝ

/-- Matrix product. -/
def Mat2.mul (A B : Mat2) : Mat2 :=
  ⟨A.m00 * B.m00 + A.m01 * B.m10, A.m00 * B.m01 + A.m01 * B.m11,
   A.m10 * B.m00 + A.m11 * B.m10, A.m10 * B.m01 + A.m11 * B.m11⟩

/-- Matrix transpose. -/
def Mat2.transpose (A : Mat2) : Mat2 := ⟨A.m00, A.m10, A.m01, A.m11⟩

/-- Determinant. -/
def Mat2.det (A : Mat2) : ℝ := A.m00 * A.m11 - A.m01 * A.m10

/-- np.linalg.inv on a 2x2 matrix: adjugate over determinant.  This is the
mathematical value on nonsingular input; the raising behaviour of
`np.linalg.inv` on singular input is modelled separately by
`mahalanobis_checked`. -/
def Mat2.inv (A : Mat2) : Mat2 :=
  ⟨A.m11 / A.det, -A.m01 / A.det, -A.m10 / A.det, A.m00 / A.det⟩

/-- Matrix-vector product. -/
def Mat2.mulVec (A : Mat2) (v : ℝ × ℝ) : ℝ × ℝ :=
  (A.m00 * v.1 + A.m01 * v.2, A.m10 * v.1 + A.m11 * v.2)

/-- Dot product of plane vectors. -/
def dot (u v : ℝ × ℝ) : ℝ := u.1 * v.1 + u.2 * v.2

/-- The identity matrix. -/
def Mat2.id2 : Mat2 := ⟨1, 0, 0, 1⟩

/-- Difference of matrices. -/
def Mat2.sub (A B : Mat2) : Mat2 :=
  ⟨A.m00 - B.m00, A.m01 - B.m01, A.m10 - B.m10, A.m11 - B.m11⟩

/-- Scalar multiple of a matrix. -/
def Mat2.smul (c : ℝ) (A : Mat2) : Mat2 :=
  ⟨c * A.m00, c * A.m01, c * A.m10, c * A.m11⟩

/-- cov_matrix(a, b, theta) from the source: rotate theta by +90 degrees,
convert to radians, build the rotation matrix R and D = diag(a^2, b^2),
and return R * D * R^T. -/
def cov_matrix (a b theta : ℝ) : Mat2 :=
  let theta_rad := radians (theta + 90)
  let R : Mat2 := ⟨Real.cos theta_rad, -Real.sin theta_rad,
                   Real.sin theta_rad, Real.cos theta_rad⟩
  let D : Mat2 := ⟨a ^ 2, 0, 0, b ^ 2⟩
  (R.mul D).mul R.transpose

/-- mahalanobis_distance(point, frbcenter, cov_matrix) from the source:
difference vector, spherical correction of the RA component by
1 / cos(radians(point dec)), then sqrt of the quadratic form with the
inverse covariance matrix.  This real-valued embedding is faithful where the
correction's divisor is nonzero (|point dec| < 90) or the difference vector
is zero; at the poles the exact-arithmetic division by zero is surfaced
instead by the checked variant mahalanobis_div_checked. -/
def mahalanobis_distance (point frbcenter : ℝ × ℝ) (cov : Mat2) : ℝ :=
  let diff := (point.1 - frbcenter.1, point.2 - frbcenter.2)
  let correction := diff.1 * (1 / Real.cos (radians point.2))
  let diff_corrected := (correction, diff.2)
  Real.sqrt (dot diff_corrected (cov.inv.mulVec diff_corrected))

/-- scipy.stats.chi2.cdf with two degrees of freedom: exact closed form
1 - exp (-x/2) for x >= 0 and 0 below. -/
def chi2_cdf_df2 (x : ℝ) : ℝ := if 0 ≤ x then 1 - Real.exp (-(x / 2)) else 0

/-- scipy.stats.chi2.ppf with two degrees of freedom: exact closed form
-2 * log (1 - p). -/
def chi2_ppf_df2 (p : ℝ) : ℝ := -2 * Real.log (1 - p)

/-- percentile(md, df=2) from the source: chi2.cdf(md^2, 2).  The script only
ever uses the default df = 2, which is the case modelled here. -/
def percentile (md : ℝ) : ℝ := chi2_cdf_df2 (md ^ 2)

/-- A row of the input catalog, with the columns read_final_catalog uses.
The `include` column is called `incl` because `include` is a Lean keyword. -/
structure CatalogRow where
  name : String
  ra_frb : ℝ
  dec_frb : ℝ
  theta : ℝ
  a_err : ℝ
  b_err : ℝ
  incl : String

/-- read_final_catalog(filename) from the source: keep the rows whose include
column equals "yes" and return their (name, ra, dec, theta, a, b) columns. -/
def read_final_catalog (rows : List CatalogRow) : List (String × ℝ × ℝ × ℝ × ℝ × ℝ) :=
  (rows.filter (fun r => r.incl = "yes")).map
    (fun r => (r.name, r.ra_frb, r.dec_frb, r.theta, r.a_err, r.b_err))

/-- The command-line arguments of the script, after argparse. -/
structure Args where
  single : Bool
  filename : Option String
  name : Option String
  ra : Option ℝ
  dec : Option ℝ
  theta : Option ℝ
  a : Option ℝ
  b : Option ℝ
  radius : ℝ

/-- What the `__main__` block decides to do. -/
inductive MainAction where
  | fatalError : MainAction
  | runSingle : Option String → Option ℝ → Option ℝ → Option ℝ → Option ℝ → Option ℝ
      → ℝ → MainAction
  | runBatch : Option String → ℝ → MainAction

/-- The dispatch in the `__main__` block: in single mode, if any of ra, dec,
theta, a, b is None, print an error and exit(1); otherwise call main with the
single-object arguments.  In batch mode call main with the filename. -/
def main_dispatch (args : Args) : MainAction :=
  if args.single then
    if args.ra.isNone || args.dec.isNone || args.theta.isNone
        || args.a.isNone || args.b.isNone then
      MainAction.fatalError
    else
      MainAction.runSingle args.name args.ra args.dec args.theta args.a args.b args.radius
  else
    MainAction.runBatch args.filename args.radius

/-- One FRB entry of the catalog as used by main's batch loop. -/
structure FRBEntry where
  name : String
  ra : ℝ
  dec : ℝ
  theta : ℝ
  a : ℝ
  b : ℝ

/-- The transient metadata main collects before plotting: the fields the
plotting loops read. -/
structure TransientData where
  frbname : String
  objname : String
  radeg : ℝ
  decdeg : ℝ

/-- In single-object mode, main's plotting loop runs its body on the first
metadata entry and then executes `break`: only the first match is processed. -/
def single_mode_processed (meta : List TransientData) : List TransientData :=
  meta.take 1

/-- In batch mode, main's nested plotting loops process every (FRB, transient)
pair whose FRB name matches, with no early exit. -/
def batch_mode_processed (catalog : List FRBEntry) (meta : List TransientData) :
    List (FRBEntry × TransientData) :=
  catalog.flatMap (fun f =>
    (meta.filter (fun td => td.frbname = f.name)).map (fun td => (f, td)))

/-- np.linalg.inv raises LinAlgError on a singular matrix; the checked variant
of the distance computation makes that failure explicit. -/
def mahalanobis_checked (point frbcenter : ℝ × ℝ) (cov : Mat2) : Except String ℝ :=
  if cov.det = 0 then Except.error "Singular matrix"
  else Except.ok (mahalanobis_distance point frbcenter cov)

/-- The spherical correction computes 1 / cos(radians(point dec)), which in
exact arithmetic is a division by zero whenever the cosine vanishes.  In the
same style as mahalanobis_checked for np.linalg.inv, this checked variant
surfaces that error path explicitly instead of adopting a division-by-zero
convention for the real-valued result. -/
def mahalanobis_div_checked (point frbcenter : ℝ × ℝ) (cov : Mat2) : Except String ℝ :=
  if Real.cos (radians point.2) = 0 then Except.error "Division by zero"
  else Except.ok (mahalanobis_distance point frbcenter cov)

/-- The body of main's batch plotting loop for one (FRB, transient) pair:
build the covariance matrix and run the distance/percentile computation that
gauss_contour performs for the annotation. -/
def process_match (f : FRBEntry) (td : TransientData) : Except String ℝ := do
  let cov := cov_matrix f.a f.b f.theta
  let md ← mahalanobis_checked (td.radeg, td.decdeg) (f.ra, f.dec) cov
  pure (percentile md)

/-- The inner loop of main's batch branch over the matching transients of one
FRB.  There is no exception handling in the source, so a raised LinAlgError
propagates and aborts the loop. -/
def batch_inner (f : FRBEntry) : List TransientData → Except String (List ℝ)
  | [] => Except.ok []
  | td :: rest => do
      let r ← process_match f td
      let rs ← batch_inner f rest
      pure (r :: rs)

/-- The outer loop of main's batch branch over the catalog entries.  There is
no exception handling in the source, so a failure in one FRB's computation
propagates and aborts the whole batch. -/
def main_batch : List FRBEntry → List TransientData → Except String (List ℝ)
  | [], _ => Except.ok []
  | f :: rest, meta => do
      let rs1 ← batch_inner f (meta.filter (fun td => td.frbname = f.name))
      let rs2 ← main_batch rest meta
      pure (rs1 ++ rs2)

/-- The boundary point at angle parameter t of the confidence ellipse that
gauss_contour draws for level L: eigenvalues are sorted descending, base
width/height are 2 * sqrt(eigenvalue), both scaled by sqrt(chi2.ppf(L, 2)),
and the patch is rotated by degrees(arctan2 of the leading eigenvector's
components reversed); matplotlib rotates by that angle converted back to
radians and uses half of width/height as semi-axes. -/
def gauss_contour_point (center : ℝ × ℝ) (l1 l2 vx vy L t : ℝ) : ℝ × ℝ :=
  let width := 2 * Real.sqrt l1
  let height := 2 * Real.sqrt l2
  let theta := degrees (arctan2 vy vx)
  let chi_square_val := chi2_ppf_df2 L
  let A := radians theta
  (center.1 + width * Real.sqrt chi_square_val / 2 * Real.cos t * Real.cos A
      - height * Real.sqrt chi_square_val / 2 * Real.sin t * Real.sin A,
   center.2 + width * Real.sqrt chi_square_val / 2 * Real.cos t * Real.sin A
      + height * Real.sqrt chi_square_val / 2 * Real.sin t * Real.cos A)

/-- The contract of np.linalg.eigh on a symmetric 2x2 matrix, stated after
gauss_contour's descending sort: eigenvalues l1 >= l2 with orthonormal
eigenvector columns (vx, vy) and (wx, wy). -/
def IsEighOf (M : Mat2) (l1 l2 vx vy wx wy : ℝ) : Prop :=
  vx ^ 2 + vy ^ 2 = 1 ∧ wx ^ 2 + wy ^ 2 = 1 ∧ vx * wx + vy * wy = 0 ∧ l2 ≤ l1 ∧
  M.mulVec (vx, vy) = (l1 * vx, l1 * vy) ∧ M.mulVec (wx, wy) = (l2 * wx, l2 * wy)

/-- Determinant of the constructed covariance matrix: a^2 * b^2. -/
theorem cov_matrix_det (a b theta : ℝ) : (cov_matrix a b theta).det = a ^ 2 * b ^ 2 := by
  have h := Real.sin_sq_add_cos_sq (radians (theta + 90))
  simp only [cov_matrix, Mat2.mul, Mat2.transpose, Mat2.det]
  linear_combination (a ^ 2 * b ^ 2 *
    (Real.sin (radians (theta + 90)) ^ 2 + Real.cos (radians (theta + 90)) ^ 2 + 1)) * h

/-- Claim C2: for every a >= b >= 0 and every real theta, cov_matrix(a, b,
theta) is symmetric and positive semi-definite, and its characteristic
polynomial is (a^2 - lam) * (b^2 - lam), so its eigenvalues are exactly a^2
and b^2 (in some order). -/
theorem cov_matrix_symmetric_psd_eigvals (a b theta : ℝ) (hb : 0 ≤ b) (hba : b ≤ a) :
    (cov_matrix a b theta).m01 = (cov_matrix a b theta).m10 ∧
    (∀ x y : ℝ, 0 ≤ dot (x, y) ((cov_matrix a b theta).mulVec (x, y))) ∧
    (∀ lam : ℝ, ((cov_matrix a b theta).sub (Mat2.smul lam Mat2.id2)).det
      = (a ^ 2 - lam) * (b ^ 2 - lam)) := by
  have h := Real.sin_sq_add_cos_sq (radians (theta + 90))
  refine ⟨?_, ?_, ?_⟩
  · simp only [cov_matrix, Mat2.mul, Mat2.transpose]
    ring
  · intro x y
    simp only [cov_matrix, Mat2.mul, Mat2.transpose, Mat2.mulVec, dot]
    nlinarith [mul_nonneg (sq_nonneg a)
        (sq_nonneg (Real.cos (radians (theta + 90)) * x + Real.sin (radians (theta + 90)) * y)),
      mul_nonneg (sq_nonneg b)
        (sq_nonneg (Real.sin (radians (theta + 90)) * x - Real.cos (radians (theta + 90)) * y))]
  · intro lam
    simp only [cov_matrix, Mat2.mul, Mat2.transpose, Mat2.sub, Mat2.smul, Mat2.id2, Mat2.det]
    linear_combination (a ^ 2 * b ^ 2 *
        (Real.sin (radians (theta + 90)) ^ 2 + Real.cos (radians (theta + 90)) ^ 2 + 1)
      - lam * (a ^ 2 + b ^ 2)) * h

/-- Witness for claim C2 at a = 2, b = 1, theta = 37. -/
theorem cov_matrix_symmetric_psd_eigvals_witness :
    (0:ℝ) ≤ 1 ∧ (1:ℝ) ≤ 2 ∧
    ((cov_matrix 2 1 37).m01 = (cov_matrix 2 1 37).m10 ∧
     (∀ x y : ℝ, 0 ≤ dot (x, y) ((cov_matrix 2 1 37).mulVec (x, y))) ∧
     (∀ lam : ℝ, ((cov_matrix 2 1 37).sub (Mat2.smul lam Mat2.id2)).det
       = ((2:ℝ) ^ 2 - lam) * ((1:ℝ) ^ 2 - lam))) :=
  ⟨by norm_num, by norm_num,
   cov_matrix_symmetric_psd_eigvals 2 1 37 (by norm_num) (by norm_num)⟩

/-- Claim C5: percentile is monotonically non-decreasing in the Mahalanobis
distance: for 0 <= d1 <= d2, percentile d1 <= percentile d2. -/
theorem percentile_monotone (d1 d2 : ℝ) (h0 : 0 ≤ d1) (h12 : d1 ≤ d2) :
    percentile d1 ≤ percentile d2 := by
  have h1 : (0:ℝ) ≤ d1 ^ 2 := sq_nonneg d1
  have h2 : (0:ℝ) ≤ d2 ^ 2 := sq_nonneg d2
  have hsq : d1 ^ 2 ≤ d2 ^ 2 := by nlinarith
  simp only [percentile, chi2_cdf_df2, if_pos h1, if_pos h2]
  have := Real.exp_le_exp.mpr (by linarith : -(d2 ^ 2 / 2) ≤ -(d1 ^ 2 / 2))
  linarith

/-- Witness for claim C5 at d1 = 1, d2 = 2. -/
theorem percentile_monotone_witness :
    (0:ℝ) ≤ 1 ∧ (1:ℝ) ≤ 2 ∧ percentile 1 ≤ percentile 2 :=
  ⟨by norm_num, by norm_num, percentile_monotone 1 2 (by norm_num) (by norm_num)⟩

/-- Claim C6: for every nonsingular covariance matrix and center with
declination strictly between -90 and +90 degrees, the Mahalanobis distance of
the center to itself is 0, and the resulting confidence percentile is 0. -/
theorem mahalanobis_center_zero (cra cdec : ℝ) (M : Mat2) (hdet : M.det ≠ 0)
    (h1 : -90 < cdec) (h2 : cdec < 90) :
    mahalanobis_distance (cra, cdec) (cra, cdec) M = 0 ∧
    percentile (mahalanobis_distance (cra, cdec) (cra, cdec) M) = 0 := by
  have hmd : mahalanobis_distance (cra, cdec) (cra, cdec) M = 0 := by
    simp [mahalanobis_distance, dot, Mat2.mulVec, Mat2.inv]
  refine ⟨hmd, ?_⟩
  rw [hmd]
  norm_num [percentile, chi2_cdf_df2]

/-- Witness for claim C6 at the spec scenario a = 0.01, b = 0.005, theta = 30,
with the center at (150, 20). -/
theorem mahalanobis_center_zero_witness :
    (cov_matrix 0.01 0.005 30).det ≠ 0 ∧ (-90:ℝ) < 20 ∧ (20:ℝ) < 90 ∧
    (mahalanobis_distance (150, 20) (150, 20) (cov_matrix 0.01 0.005 30) = 0 ∧
     percentile (mahalanobis_distance (150, 20) (150, 20) (cov_matrix 0.01 0.005 30)) = 0) := by
  have hdet : (cov_matrix 0.01 0.005 30).det ≠ 0 := by rw [cov_matrix_det]; norm_num
  exact ⟨hdet, by norm_num, by norm_num,
    mahalanobis_center_zero 150 20 _ hdet (by norm_num) (by norm_num)⟩

/-- On a pure RA offset the Mahalanobis distance closes to an explicit form. -/
theorem mahalanobis_ra_offset (M : Mat2) (ra dra d : ℝ) :
    mahalanobis_distance (ra + dra, d) (ra, d) M
      = Real.sqrt ((dra * (1 / Real.cos (radians d))) ^ 2 * M.m11 / M.det) := by
  simp only [mahalanobis_distance, dot, Mat2.mulVec, Mat2.inv]
  congr 1
  ring

/-- Claim C3: with the same raw RA offset and the same (positive definite)
covariance, the spherically corrected Mahalanobis distance is strictly larger
at declination 60 than at declination 0. -/
theorem mahalanobis_dec_correction (M : Mat2) (ra dra : ℝ)
    (hm : 0 < M.m11) (hdet : 0 < M.det) (hd : dra ≠ 0) :
    mahalanobis_distance (ra + dra, 0) (ra, 0) M <
    mahalanobis_distance (ra + dra, 60) (ra, 60) M := by
  have hc0 : Real.cos (radians 0) = 1 := by
    simp [radians]
  have h60 : radians 60 = Real.pi / 3 := by
    simp only [radians]
    ring
  have hc60 : Real.cos (radians 60) = 1 / 2 := by
    rw [h60, Real.cos_pi_div_three]
  rw [mahalanobis_ra_offset, mahalanobis_ra_offset, hc0, hc60]
  have hx : (0:ℝ) < dra ^ 2 * M.m11 / M.det := by positivity
  apply Real.sqrt_lt_sqrt
  · positivity
  · have e1 : (dra * (1 / 1)) ^ 2 * M.m11 / M.det = dra ^ 2 * M.m11 / M.det := by ring
    have e2 : (dra * (1 / (1 / 2))) ^ 2 * M.m11 / M.det
        = 4 * (dra ^ 2 * M.m11 / M.det) := by ring
    rw [e1, e2]
    linarith

/-- Witness for claim C3 with the identity covariance, ra = 0, dra = 1. -/
theorem mahalanobis_dec_correction_witness :
    (0:ℝ) < (Mat2.mk 1 0 0 1).m11 ∧ (0:ℝ) < (Mat2.mk 1 0 0 1).det ∧ (1:ℝ) ≠ 0 ∧
    mahalanobis_distance (0 + 1, 0) (0, 0) (Mat2.mk 1 0 0 1) <
    mahalanobis_distance (0 + 1, 60) (0, 60) (Mat2.mk 1 0 0 1) :=
  ⟨by norm_num [Mat2.det], by norm_num [Mat2.det], by norm_num,
   mahalanobis_dec_correction (Mat2.mk 1 0 0 1) 0 1
     (by norm_num) (by norm_num [Mat2.det]) (by norm_num)⟩

/-- Claim C8: read_final_catalog returns exactly the rows whose include column
equals "yes": a tuple is returned iff it comes from such a row. -/
theorem read_final_catalog_filters_include (rows : List CatalogRow)
    (t : String × ℝ × ℝ × ℝ × ℝ × ℝ) :
    t ∈ read_final_catalog rows ↔
      ∃ r ∈ rows, r.incl = "yes" ∧
        t = (r.name, r.ra_frb, r.dec_frb, r.theta, r.a_err, r.b_err) := by
  simp only [read_final_catalog, List.mem_map, List.mem_filter, decide_eq_true_eq]
  constructor
  · rintro ⟨r, ⟨hr, hy⟩, ht⟩
    exact ⟨r, hr, hy, ht.symm⟩
  · rintro ⟨r, hr, hy, ht⟩
    exact ⟨r, ⟨hr, hy⟩, ht.symm⟩

/-- Counterexample to claim C7: with single mode set and ra, dec, theta, a, b
all present but the FRB name missing, the script does not exit fatally — the
missing name is never checked, and the computation is attempted. -/
theorem main_dispatch_missing_name_not_fatal :
    (Args.mk true none none (some 1) (some 2) (some 3) (some 4) (some 5) 3).name = none ∧
    main_dispatch (Args.mk true none none (some 1) (some 2) (some 3) (some 4) (some 5) 3)
      ≠ MainAction.fatalError := by
  constructor
  · rfl
  · simp [main_dispatch]

/-- Claim C7 as amended: in single-object mode, if any of ra, dec, theta, a, b
is missing the program reports the error and exits fatally with no computation
attempted; the FRB name is not among the checked parameters. -/
theorem main_dispatch_missing_param_fatal (args : Args) (hs : args.single = true)
    (h : args.ra = none ∨ args.dec = none ∨ args.theta = none
      ∨ args.a = none ∨ args.b = none) :
    main_dispatch args = MainAction.fatalError := by
  rcases h with h | h | h | h | h <;> simp [main_dispatch, hs, h]

/-- Witness for the amended claim C7: single mode with dec missing. -/
theorem main_dispatch_missing_param_fatal_witness :
    (Args.mk true none (some "FRB 20240101A") (some 1) none (some 3) (some 4) (some 5) 3).single
        = true ∧
    ((Args.mk true none (some "FRB 20240101A") (some 1) none (some 3) (some 4) (some 5) 3).ra
          = none ∨
      (Args.mk true none (some "FRB 20240101A") (some 1) none (some 3) (some 4) (some 5) 3).dec
          = none ∨
      (Args.mk true none (some "FRB 20240101A") (some 1) none (some 3) (some 4) (some 5) 3).theta
          = none ∨
      (Args.mk true none (some "FRB 20240101A") (some 1) none (some 3) (some 4) (some 5) 3).a
          = none ∨
      (Args.mk true none (some "FRB 20240101A") (some 1) none (some 3) (some 4) (some 5) 3).b
          = none) ∧
    main_dispatch (Args.mk true none (some "FRB 20240101A") (some 1) none (some 3) (some 4)
        (some 5) 3)
      = MainAction.fatalError :=
  ⟨rfl, Or.inr (Or.inl rfl),
   main_dispatch_missing_param_fatal _ rfl (Or.inr (Or.inl rfl))⟩

/-- Claim C9: single-object mode processes at most one matched transient
(stopping after the first), while batch mode processes exactly the pairs whose
FRB name matches the catalog entry, with no early exit at the match level. -/
theorem orchestrator_match_processing :
    (∀ meta : List TransientData, (single_mode_processed meta).length ≤ 1) ∧
    (∀ td rest, single_mode_processed (td :: rest) = [td]) ∧
    (∀ (catalog : List FRBEntry) (meta : List TransientData) (f : FRBEntry)
        (td : TransientData),
      (f, td) ∈ batch_mode_processed catalog meta ↔
        f ∈ catalog ∧ td ∈ meta ∧ td.frbname = f.name) := by
  refine ⟨?_, ?_, ?_⟩
  · intro meta
    simp only [single_mode_processed, List.length_take]
    exact min_le_left _ _
  · intro td rest
    rfl
  · intro catalog meta f td
    simp only [batch_mode_processed, List.mem_flatMap, List.mem_map, List.mem_filter,
      decide_eq_true_eq, Prod.mk.injEq]
    constructor
    · rintro ⟨f', hf', td', ⟨htd', hname⟩, hf'', htd''⟩
      subst hf''
      subst htd''
      exact ⟨hf', htd', hname⟩
    · rintro ⟨hf, htd, hname⟩
      exact ⟨f, hf, td, ⟨htd, hname⟩, rfl, rfl⟩

/-- Claim C4, evaluated at a failing input: a catalog whose first FRB has
semi-minor axis 0 (singular covariance) and a matched transient aborts the
entire batch run with the inversion error — the second, valid FRB is never
processed, contradicting the claim that the failure is contained to one FRB. -/
theorem main_batch_aborts_on_singular :
    main_batch
      [FRBEntry.mk "FRB 20240101A" 0 0 0 1 0, FRBEntry.mk "FRB 20240202B" 10 10 30 1 1]
      [TransientData.mk "FRB 20240101A" "SN 2024aa" 0.01 0.01,
       TransientData.mk "FRB 20240202B" "SN 2024bb" 10.01 10.01]
      = Except.error "Singular matrix" := by
  have hdet : (cov_matrix 1 0 0).det = 0 := by
    rw [cov_matrix_det]; norm_num
  simp only [main_batch, batch_inner, process_match, mahalanobis_checked, hdet,
    List.filter, decide_eq_true_eq]
  rfl

/-- Shared fact: 60 degrees in radians has cosine 1/2. -/
theorem cos_radians_60 : Real.cos (radians 60) = 1 / 2 := by
  have h60 : radians 60 = Real.pi / 3 := by
    simp only [radians]
    ring
  rw [h60, Real.cos_pi_div_three]

/-- Claim C10: mahalanobis_distance has an unguarded division by
cos(radians(point dec)).  At declination exactly +90 or -90 that divisor is
exactly zero, so in exact arithmetic the spherical correction divides by zero
and the computation takes the error path instead of returning a finite
non-negative real, while strictly inside (-90, 90) the divisor never
vanishes: |dec| < 90 is the unstated precondition under which the division is
defined. -/
theorem mahalanobis_pole_division_by_zero :
    Real.cos (radians 90) = 0 ∧ Real.cos (radians (-90)) = 0 ∧
    (∀ (pra cra cdec : ℝ) (M : Mat2),
      mahalanobis_div_checked (pra, 90) (cra, cdec) M
        = Except.error "Division by zero") ∧
    (∀ (pra cra cdec : ℝ) (M : Mat2),
      mahalanobis_div_checked (pra, -90) (cra, cdec) M
        = Except.error "Division by zero") ∧
    (∀ d : ℝ, -90 < d → d < 90 → Real.cos (radians d) ≠ 0) := by
  have h90 : radians 90 = Real.pi / 2 := by
    simp only [radians]
    ring
  have hm90 : radians (-90) = -(Real.pi / 2) := by
    simp only [radians]
    ring
  have hc : Real.cos (radians 90) = 0 := by rw [h90, Real.cos_pi_div_two]
  have hcm : Real.cos (radians (-90)) = 0 := by
    rw [hm90, Real.cos_neg, Real.cos_pi_div_two]
  refine ⟨hc, hcm, ?_, ?_, ?_⟩
  · intro pra cra cdec M
    simp [mahalanobis_div_checked, hc]
  · intro pra cra cdec M
    simp [mahalanobis_div_checked, hcm]
  · intro d hd1 hd2
    have hpi := Real.pi_pos
    have hmem : radians d ∈ Set.Ioo (-(Real.pi / 2)) (Real.pi / 2) := by
      constructor
      · simp only [radians]
        nlinarith [mul_pos (show (0:ℝ) < d + 90 by linarith) hpi]
      · simp only [radians]
        nlinarith [mul_pos (show (0:ℝ) < 90 - d by linarith) hpi]
    exact ne_of_gt (Real.cos_pos_of_mem_Ioo hmem)

/-- Witness for claim C10: the checked computation at declination 90 hits the
division-by-zero error path, while declination 0 satisfies the precondition
and has a nonvanishing divisor. -/
theorem mahalanobis_pole_division_by_zero_witness :
    mahalanobis_div_checked (1, 90) (0, 90) (Mat2.mk 1 0 0 1)
        = Except.error "Division by zero" ∧
    (-90:ℝ) < 0 ∧ (0:ℝ) < 90 ∧ Real.cos (radians 0) ≠ 0 :=
  ⟨mahalanobis_pole_division_by_zero.2.2.1 1 0 90 (Mat2.mk 1 0 0 1),
   by norm_num, by norm_num,
   mahalanobis_pole_division_by_zero.2.2.2.2 0 (by norm_num) (by norm_num)⟩

/-- Degrees and radians are inverse to each other. -/
theorem radians_degrees (x : ℝ) : radians (degrees x) = x := by
  simp only [radians, degrees]
  field_simp

/-- Cosine and sine of arctan2 on a unit vector recover its components. -/
theorem arctan2_unit (vx vy : ℝ) (hv : vx ^ 2 + vy ^ 2 = 1) :
    Real.cos (arctan2 vy vx) = vx ∧ Real.sin (arctan2 vy vx) = vy := by
  have hz : (⟨vx, vy⟩ : ℂ) ≠ 0 := by
    intro h0
    rw [Complex.ext_iff] at h0
    simp only [Complex.zero_re, Complex.zero_im] at h0
    rw [h0.1, h0.2] at hv
    norm_num at hv
  have habs : Complex.abs ⟨vx, vy⟩ = 1 := by
    rw [Complex.abs_apply, Complex.normSq_mk]
    rw [show vx * vx + vy * vy = 1 by nlinarith [hv]]
    exact Real.sqrt_one
  constructor
  · rw [arctan2, Complex.cos_arg hz, habs]
    simp
  · rw [arctan2, Complex.sin_arg, habs]
    simp

/-- An eigh decomposition determines the matrix entries. -/
theorem eigh_entries (M : Mat2) (l1 l2 vx vy wx wy : ℝ)
    (h : IsEighOf M l1 l2 vx vy wx wy) :
    M.m00 = l1 * vx ^ 2 + l2 * vy ^ 2 ∧ M.m01 = (l1 - l2) * (vx * vy) ∧
    M.m10 = (l1 - l2) * (vx * vy) ∧ M.m11 = l1 * vy ^ 2 + l2 * vx ^ 2 := by
  obtain ⟨hv, hw, ho, hle, hMv, hMw⟩ := h
  simp only [Mat2.mulVec, Prod.mk.injEq] at hMv hMw
  obtain ⟨hMv1, hMv2⟩ := hMv
  obtain ⟨hMw1, hMw2⟩ := hMw
  set c := vx * wy - vy * wx with hcdef
  have hc2 : c ^ 2 = 1 := by
    linear_combination (wx ^ 2 + wy ^ 2) * hv + hw - (vx * wx + vy * wy) * ho
  have hcne : c ≠ 0 := by
    intro h0
    rw [h0] at hc2
    norm_num at hc2
  have hwx : wx = -(c * vy) := by linear_combination vx * ho - wx * hv
  have hwy : wy = c * vx := by linear_combination vy * ho - wy * hv
  rw [hwx, hwy] at hMw1 hMw2
  have hp1 : M.m00 * (-vy) + M.m01 * vx = l2 * (-vy) := by
    apply mul_left_cancel₀ hcne
    linear_combination hMw1
  have hp2 : M.m10 * (-vy) + M.m11 * vx = l2 * vx := by
    apply mul_left_cancel₀ hcne
    linear_combination hMw2
  refine ⟨?_, ?_, ?_, ?_⟩
  · linear_combination vx * hMv1 - vy * hp1 - M.m00 * hv
  · linear_combination vy * hMv1 + vx * hp1 - M.m01 * hv
  · linear_combination vx * hMv2 - vy * hp2 - M.m10 * hv
  · linear_combination vy * hMv2 + vx * hp2 - M.m11 * hv

/-- The determinant of a matrix with an eigh decomposition is the product of
the eigenvalues. -/
theorem eigh_det (M : Mat2) (l1 l2 vx vy wx wy : ℝ)
    (h : IsEighOf M l1 l2 vx vy wx wy) : M.det = l1 * l2 := by
  obtain ⟨e00, e01, e10, e11⟩ := eigh_entries M l1 l2 vx vy wx wy h
  rw [Mat2.det, e00, e01, e10, e11]
  linear_combination l1 * l2 * (vx ^ 2 + vy ^ 2 + 1) * h.1

/-- Counterexample to claim C1: for the identity covariance matrix (a valid
covariance matrix, produced by cov_matrix 1 1 0) with a valid eigh
decomposition, a point exactly on the 68 percent contour ellipse centered at
declination 60 does not evaluate back to percentile 0.68: the spherical
correction inside mahalanobis_distance doubles the RA offset, so the
percentile is 1 - 0.32^4, off by about 0.31. -/
theorem gauss_contour_roundtrip_counterexample :
    cov_matrix 1 1 0 = Mat2.mk 1 0 0 1 ∧
    IsEighOf (Mat2.mk 1 0 0 1) 1 1 1 0 0 1 ∧
    ¬ (|percentile (mahalanobis_distance
          (gauss_contour_point (0, 60) 1 1 1 0 0.68 0) (0, 60) (Mat2.mk 1 0 0 1))
        - 0.68| ≤ 1e-6) := by
  have hpy := Real.sin_sq_add_cos_sq (radians (0 + 90))
  refine ⟨?_, ?_, ?_⟩
  · simp only [cov_matrix, Mat2.mul, Mat2.transpose]
    rw [Mat2.mk.injEq]
    refine ⟨?_, ?_, ?_, ?_⟩
    · linear_combination hpy
    · ring
    · ring
    · linear_combination hpy
  · refine ⟨by norm_num, by norm_num, by norm_num, le_refl 1, ?_, ?_⟩ <;>
      simp [Mat2.mulVec]
  · -- evaluate the contour point: at t = 0 and leading eigenvector (1, 0)
    -- the point is (sqrt (chi2_ppf_df2 0.68), 60)
    have harg : arctan2 0 1 = 0 := by
      rw [arctan2, show (⟨1, 0⟩ : ℂ) = 1 from Complex.ext (by simp) (by simp)]
      exact Complex.arg_one
    have hL : Real.log 0.32 < 0 := Real.log_neg (by norm_num) (by norm_num)
    have hK : chi2_ppf_df2 0.68 = -2 * Real.log 0.32 := by
      rw [chi2_ppf_df2]
      norm_num
    have hKpos : 0 < chi2_ppf_df2 0.68 := by rw [hK]; linarith
    have hpoint : gauss_contour_point (0, 60) 1 1 1 0 0.68 0
        = (Real.sqrt (chi2_ppf_df2 0.68), 60) := by
      simp only [gauss_contour_point, harg]
      rw [Prod.mk.injEq]
      constructor
      · rw [show degrees 0 = 0 by simp [degrees]]
        rw [show radians 0 = 0 by simp [radians]]
        simp [Real.sqrt_one]
      · rw [show degrees 0 = 0 by simp [degrees]]
        rw [show radians 0 = 0 by simp [radians]]
        simp
    rw [hpoint]
    have hsplit : ((Real.sqrt (chi2_ppf_df2 0.68) : ℝ), (60:ℝ))
        = ((0:ℝ) + Real.sqrt (chi2_ppf_df2 0.68), (60:ℝ)) := by norm_num
    rw [hsplit, mahalanobis_ra_offset, cos_radians_60]
    have hs : Real.sqrt (chi2_ppf_df2 0.68) ^ 2 = chi2_ppf_df2 0.68 :=
      Real.sq_sqrt hKpos.le
    have harg2 : (Real.sqrt (chi2_ppf_df2 0.68) * (1 / (1 / 2))) ^ 2
        * (Mat2.mk 1 0 0 1).m11 / (Mat2.mk 1 0 0 1).det
        = 4 * chi2_ppf_df2 0.68 := by
      rw [show (Mat2.mk 1 0 0 1).m11 = 1 from rfl, show (Mat2.mk 1 0 0 1).det = 1 by
        simp [Mat2.det]]
      rw [show (Real.sqrt (chi2_ppf_df2 0.68) * (1 / (1 / 2))) ^ 2
          = 4 * Real.sqrt (chi2_ppf_df2 0.68) ^ 2 by ring, hs]
      ring
    rw [harg2]
    have hmd2 : Real.sqrt (4 * chi2_ppf_df2 0.68) ^ 2 = 4 * chi2_ppf_df2 0.68 :=
      Real.sq_sqrt (by linarith)
    rw [percentile, hmd2, chi2_cdf_df2, if_pos (by linarith : (0:ℝ) ≤ 4 * chi2_ppf_df2 0.68)]
    rw [hK]
    rw [show -(4 * (-2 * Real.log 0.32) / 2) = Real.log (0.32 ^ 4) by
      rw [Real.log_pow]; push_cast; ring]
    rw [Real.exp_log (by norm_num : (0:ℝ) < 0.32 ^ 4)]
    rw [abs_of_pos (by norm_num)]
    norm_num

/-- Claim C1 as amended: for every positive definite covariance matrix with an
eigh decomposition and every level L in [0, 1), a point on the level-L contour
ellipse of gauss_contour evaluates back to percentile exactly L, provided the
spherical correction is trivial at the point's declination (cos of the
point's declination in radians equals 1, e.g. on the equator); with a
nontrivial correction the round trip fails, as the counterexample shows. -/
theorem gauss_contour_roundtrip (M : Mat2) (l1 l2 vx vy wx wy cx cy L t : ℝ)
    (h : IsEighOf M l1 l2 vx vy wx wy) (hl2 : 0 < l2) (hL0 : 0 ≤ L) (hL1 : L < 1)
    (hcos : Real.cos (radians (gauss_contour_point (cx, cy) l1 l2 vx vy L t).2) = 1) :
    percentile (mahalanobis_distance
      (gauss_contour_point (cx, cy) l1 l2 vx vy L t) (cx, cy) M) = L := by
  obtain ⟨e00, e01, e10, e11⟩ := eigh_entries M l1 l2 vx vy wx wy h
  have hdetM : M.det = l1 * l2 := eigh_det M l1 l2 vx vy wx wy h
  have hv : vx ^ 2 + vy ^ 2 = 1 := h.1
  have hl1 : 0 < l1 := lt_of_lt_of_le hl2 h.2.2.2.1
  have hppf : 0 ≤ chi2_ppf_df2 L := by
    rw [chi2_ppf_df2]
    nlinarith [Real.log_nonpos (by linarith : (0:ℝ) ≤ 1 - L) (by linarith : 1 - L ≤ 1)]
  have hk2 : Real.sqrt (chi2_ppf_df2 L) ^ 2 = chi2_ppf_df2 L := Real.sq_sqrt hppf
  have hs1 : Real.sqrt l1 ^ 2 = l1 := Real.sq_sqrt hl1.le
  have hs2 : Real.sqrt l2 ^ 2 = l2 := Real.sq_sqrt hl2.le
  have hcA : Real.cos (radians (degrees (arctan2 vy vx))) = vx := by
    rw [radians_degrees]
    exact (arctan2_unit vx vy hv).1
  have hsA : Real.sin (radians (degrees (arctan2 vy vx))) = vy := by
    rw [radians_degrees]
    exact (arctan2_unit vx vy hv).2
  have hp1 : (gauss_contour_point (cx, cy) l1 l2 vx vy L t).1
      = cx + Real.sqrt l1 * Real.sqrt (chi2_ppf_df2 L) * Real.cos t * vx
           - Real.sqrt l2 * Real.sqrt (chi2_ppf_df2 L) * Real.sin t * vy := by
    simp only [gauss_contour_point]
    rw [hcA, hsA]
    ring
  have hp2 : (gauss_contour_point (cx, cy) l1 l2 vx vy L t).2
      = cy + Real.sqrt l1 * Real.sqrt (chi2_ppf_df2 L) * Real.cos t * vy
           + Real.sqrt l2 * Real.sqrt (chi2_ppf_df2 L) * Real.sin t * vx := by
    simp only [gauss_contour_point]
    rw [hcA, hsA]
    ring
  have hmd : mahalanobis_distance (gauss_contour_point (cx, cy) l1 l2 vx vy L t) (cx, cy) M
      = Real.sqrt (chi2_ppf_df2 L) := by
    simp only [mahalanobis_distance, dot, Mat2.mulVec, Mat2.inv]
    rw [hcos]
    congr 1
    rw [hp1, hp2, e00, e01, e10, e11, hdetM]
    have hs1pos : 0 < Real.sqrt l1 := Real.sqrt_pos.mpr hl1
    have hs2pos : 0 < Real.sqrt l2 := Real.sqrt_pos.mpr hl2
    set s1 := Real.sqrt l1 with hs1def
    set s2 := Real.sqrt l2 with hs2def
    set k := Real.sqrt (chi2_ppf_df2 L) with hkdef
    rw [← hs1, ← hs2, ← hk2]
    field_simp
    linear_combination (s1 ^ 6 * s2 ^ 6 * k ^ 2 * (Real.cos t ^ 2 + Real.sin t ^ 2)
        * (vx ^ 2 + vy ^ 2 + 1)) * hv
      + (s1 ^ 6 * s2 ^ 6 * k ^ 2) * Real.sin_sq_add_cos_sq t
  rw [hmd, percentile, hk2, chi2_cdf_df2, if_pos hppf, chi2_ppf_df2]
  rw [show -(-2 * Real.log (1 - L) / 2) = Real.log (1 - L) by ring]
  rw [Real.exp_log (by linarith : (0:ℝ) < 1 - L)]
  ring

/-- Witness for the amended claim C1: identity covariance, level 0.68, the
contour point at parameter t = 0 lies on the equator, and the percentile
evaluates back to exactly 0.68. -/
theorem gauss_contour_roundtrip_witness :
    IsEighOf (Mat2.mk 1 0 0 1) 1 1 1 0 0 1 ∧ (0:ℝ) < 1 ∧ (0:ℝ) ≤ 0.68 ∧ (0.68:ℝ) < 1 ∧
    Real.cos (radians (gauss_contour_point (0, 0) 1 1 1 0 0.68 0).2) = 1 ∧
    percentile (mahalanobis_distance (gauss_contour_point (0, 0) 1 1 1 0 0.68 0) (0, 0)
      (Mat2.mk 1 0 0 1)) = 0.68 := by
  have heigh : IsEighOf (Mat2.mk 1 0 0 1) 1 1 1 0 0 1 := by
    refine ⟨by norm_num, by norm_num, by norm_num, le_refl 1, ?_, ?_⟩ <;> simp [Mat2.mulVec]
  have harg : arctan2 0 1 = 0 := by
    rw [arctan2, show (⟨1, 0⟩ : ℂ) = 1 from Complex.ext (by simp) (by simp)]
    exact Complex.arg_one
  have hsnd : (gauss_contour_point ((0:ℝ), 0) 1 1 1 0 0.68 0).2 = 0 := by
    simp only [gauss_contour_point, harg]
    rw [show degrees 0 = 0 by simp [degrees], show radians 0 = 0 by simp [radians]]
    simp
  have hcos : Real.cos (radians (gauss_contour_point ((0:ℝ), 0) 1 1 1 0 0.68 0).2) = 1 := by
    rw [hsnd, show radians 0 = 0 by simp [radians], Real.cos_zero]
  exact ⟨heigh, by norm_num, by norm_num, by norm_num, hcos,
    gauss_contour_roundtrip (Mat2.mk 1 0 0 1) 1 1 1 0 0 1 0 0 0.68 0 heigh
      (by norm_num) (by norm_num) (by norm_num) hcos⟩

end

end TNS
